import Mathlib

/-!
Verification of `csf/train.py` (contrastive sensor fusion, unsupervised
training) against its natural-language specification.

Shallow embedding conventions:
* Tensors are total functions over `Fin`-indexed coordinates; float values
  are embedded as exact real numbers (`ℝ`) where transcendental functions
  (`exp`, `log`) occur, and as exact rationals (`ℚ`) in the purely
  arithmetic configuration code (schedule, flag parsing).
* `tf` library operations are embedded by their documented semantics.
* External randomness (crop offsets, uniform dropout draws) appears as
  explicit function parameters, so the embedded functions are pure.
-/

namespace CSF

open scoped BigOperators

/-! ## Contrastive loss (`_contrastive_loss`, train.py lines 219-312)

`representation_1` / `representation_2` are batches of `batch_size`
representations; `tf.reshape(x, (batch_size, -1))` flattens all trailing
axes into one.  We embed a representation batch as `Fin n → ρ → ℝ` where
`ρ` is the (finite) type of flattened coordinate positions; the flattened
vector of batch element `i` is the function `r i`. -/

/-- Embedding of `tf.linalg.matmul(flat_1, flat_2, transpose_b=True)`:
element `(i, j)` is the dot product of flattened representation `i` of
view 1 with flattened representation `j` of view 2. -/
noncomputable def similarities {n : ℕ} {ρ : Type} [Fintype ρ]
    (r1 r2 : Fin n → ρ → ℝ) : Fin n → Fin n → ℝ :=
  fun i j => ∑ x : ρ, r1 i x * r2 j x

/-- Embedding of `tf.divide(similarities, FLAGS.softmax_temperature)`
(train.py line 257). -/
noncomputable def sharpened {n : ℕ} (τ : ℝ) (S : Fin n → Fin n → ℝ) :
    Fin n → Fin n → ℝ :=
  fun i j => S i j / τ

/-- Embedding of `tf.nn.log_softmax(S, axis=1)`: for each row `i`,
`log_softmax` along the column axis, in the numerically explicit form
`x - log (sum exp)` used to define the operation. -/
noncomputable def log_softmax_row {n : ℕ} (S : Fin n → Fin n → ℝ) :
    Fin n → Fin n → ℝ :=
  fun i j => S i j - Real.log (∑ k : Fin n, Real.exp (S i k))

/-- Embedding of `tf.nn.log_softmax(S, axis=0)`: for each column `j`,
`log_softmax` along the row axis. -/
noncomputable def log_softmax_col {n : ℕ} (S : Fin n → Fin n → ℝ) :
    Fin n → Fin n → ℝ :=
  fun i j => S i j - Real.log (∑ k : Fin n, Real.exp (S k j))

/-- Embedding of `nce_loss_forward` (train.py lines 261-266):
negative `reduce_mean` of the diagonal of the row-wise log-softmax of
the temperature-scaled similarities. -/
noncomputable def nce_loss_forward {n : ℕ} {ρ : Type} [Fintype ρ]
    (τ : ℝ) (r1 r2 : Fin n → ρ → ℝ) : ℝ :=
  -((∑ i : Fin n, log_softmax_row (sharpened τ (similarities r1 r2)) i i) / n)

/-- Embedding of `nce_loss_backward` (train.py lines 268-273):
negative `reduce_mean` of the diagonal of the column-wise log-softmax of
the temperature-scaled similarities. -/
noncomputable def nce_loss_backward {n : ℕ} {ρ : Type} [Fintype ρ]
    (τ : ℝ) (r1 r2 : Fin n → ρ → ℝ) : ℝ :=
  -((∑ i : Fin n, log_softmax_col (sharpened τ (similarities r1 r2)) i i) / n)

/-- Embedding of `nce_loss_total = nce_loss_forward + nce_loss_backward`
(train.py line 275). -/
noncomputable def nce_loss_total {n : ℕ} {ρ : Type} [Fintype ρ]
    (τ : ℝ) (r1 r2 : Fin n → ρ → ℝ) : ℝ :=
  nce_loss_forward τ r1 r2 + nce_loss_backward τ r1 r2

/-- A function `am` is a faithful embedding of `tf.argmax` on vectors iff it
always returns an index attaining the maximum.  (TensorFlow documents the
result as an index of the largest value and leaves the identity of the
result unspecified on ties, so we model `tf.argmax` as an arbitrary
maximiser selector.) -/
def IsArgmaxSelector {n : ℕ} (am : (Fin n → ℝ) → Fin n) : Prop :=
  ∀ f : Fin n → ℝ, ∀ k : Fin n, f k ≤ f (am f)

/-- Embedding of `batch_accuracy` (train.py lines 277-287).
`predictions = tf.argmax(similarities)` uses the *default* axis `0`, so
`predictions[j]` is a row index maximising column `j` of the
temperature-scaled similarity matrix; element `j` of the batch counts as
correct when that row index equals `j`, and the accuracy is the mean. -/
noncomputable def batch_accuracy {n : ℕ} (am : (Fin n → ℝ) → Fin n)
    (S : Fin n → Fin n → ℝ) : ℝ :=
  (∑ j : Fin n, if am (fun i => S i j) = j then (1 : ℝ) else 0) / n

/-- Embedding of `_contrastive_loss` (train.py lines 219-312): returns the
pair `(nce_loss_total, batch_accuracy)`.  The `show_summaries` branch
(lines 289-310) only emits `tf.summary` records and does not feed the
returned tensors; it is modelled separately in the training-step embedding
below.  `am` is the `tf.argmax` maximiser selector. -/
noncomputable def _contrastive_loss {n : ℕ} {ρ : Type} [Fintype ρ]
    (am : (Fin n → ℝ) → Fin n) (τ : ℝ) (r1 r2 : Fin n → ρ → ℝ) : ℝ × ℝ :=
  (nce_loss_total τ r1 r2,
   batch_accuracy am (sharpened τ (similarities r1 r2)))

/-! Spec-side formulations, written from the specification's words, to be
compared against the source-side definitions above. -/

/-- Spec-side row-wise softmax: `exp` of an entry divided by the row sum of
`exp`s ("apply log-softmax across each row" with log-softmax understood as
the log of the softmax). -/
noncomputable def softmax_row_spec {n : ℕ} (S : Fin n → Fin n → ℝ) :
    Fin n → Fin n → ℝ :=
  fun i j => Real.exp (S i j) / ∑ k : Fin n, Real.exp (S i k)

/-- Spec-side column-wise softmax. -/
noncomputable def softmax_col_spec {n : ℕ} (S : Fin n → Fin n → ℝ) :
    Fin n → Fin n → ℝ :=
  fun i j => Real.exp (S i j) / ∑ k : Fin n, Real.exp (S k j)

/-- Spec-side total loss (claim C2): form the matrix of pairwise dot
products of the flattened representations, divide by the temperature, and
add the negative mean of the diagonal of the row-wise log-softmax to the
negative mean of the diagonal of the column-wise log-softmax. -/
noncomputable def total_loss_spec {n : ℕ} {ρ : Type} [Fintype ρ]
    (τ : ℝ) (r1 r2 : Fin n → ρ → ℝ) : ℝ :=
  -((∑ i : Fin n,
      Real.log (softmax_row_spec (fun i j => (∑ x : ρ, r1 i x * r2 j x) / τ) i i)) / n)
  + -((∑ i : Fin n,
      Real.log (softmax_col_spec (fun i j => (∑ x : ρ, r1 i x * r2 j x) / τ) i i)) / n)

/-- Spec-side row-wise accuracy (the accuracy as claim C4 words it): batch
element `i` counts as correct exactly when the column index of the maximum
of row `i` of the temperature-scaled similarity matrix equals `i`. -/
noncomputable def rowwise_accuracy_spec {n : ℕ} (am : (Fin n → ℝ) → Fin n)
    (S : Fin n → Fin n → ℝ) : ℝ :=
  (∑ i : Fin n, if am (fun j => S i j) = i then (1 : ℝ) else 0) / n

/-- Spec-side column-wise accuracy with strict maxima (claim C4 as
amended): batch element `j` counts as correct exactly when row `j` strictly
dominates every other row inside column `j` of the temperature-scaled
similarity matrix. -/
noncomputable def colwise_strict_accuracy_spec {n : ℕ}
    (S : Fin n → Fin n → ℝ) : ℝ :=
  (∑ j : Fin n,
    if ∀ i : Fin n, i ≠ j → S i j < S j j then (1 : ℝ) else 0) / n

/-- Pointwise: the spec's row log-softmax (log of the softmax) agrees with
the source's `x - log (sum exp)` form. -/
lemma log_softmax_row_eq {n : ℕ} (S : Fin n → Fin n → ℝ) (i j : Fin n) :
    Real.log (softmax_row_spec S i j) = log_softmax_row S i j := by
  have hpos : 0 < ∑ k : Fin n, Real.exp (S i k) :=
    Finset.sum_pos (fun k _ => Real.exp_pos _) ⟨i, Finset.mem_univ i⟩
  unfold softmax_row_spec log_softmax_row
  rw [Real.log_div (Real.exp_ne_zero _) (ne_of_gt hpos), Real.log_exp]

/-- Pointwise: the spec's column log-softmax agrees with the source's. -/
lemma log_softmax_col_eq {n : ℕ} (S : Fin n → Fin n → ℝ) (i j : Fin n) :
    Real.log (softmax_col_spec S i j) = log_softmax_col S i j := by
  have hpos : 0 < ∑ k : Fin n, Real.exp (S k j) :=
    Finset.sum_pos (fun k _ => Real.exp_pos _) ⟨i, Finset.mem_univ i⟩
  unfold softmax_col_spec log_softmax_col
  rw [Real.log_div (Real.exp_ne_zero _) (ne_of_gt hpos), Real.log_exp]

/-- Claim C2: for every pair of equal-batch-size representation tensors,
`_contrastive_loss` flattens each to one vector per batch element, forms
the matrix of pairwise dot products, divides by the temperature, and
returns as total loss the sum of the negative mean of the diagonal of the
row-wise log-softmax and the negative mean of the diagonal of the
column-wise log-softmax of that matrix. -/
theorem claim_C2 {n : ℕ} {ρ : Type} [Fintype ρ] (am : (Fin n → ℝ) → Fin n)
    (τ : ℝ) (r1 r2 : Fin n → ρ → ℝ) :
    (_contrastive_loss am τ r1 r2).1 = total_loss_spec τ r1 r2 := by
  show nce_loss_total τ r1 r2 = total_loss_spec τ r1 r2
  unfold nce_loss_total nce_loss_forward nce_loss_backward total_loss_spec
  have hrow : ∀ i : Fin n,
      log_softmax_row (sharpened τ (similarities r1 r2)) i i =
        Real.log (softmax_row_spec
          (fun i j => (∑ x : ρ, r1 i x * r2 j x) / τ) i i) := by
    intro i
    exact (log_softmax_row_eq (sharpened τ (similarities r1 r2)) i i).symm
  have hcol : ∀ i : Fin n,
      log_softmax_col (sharpened τ (similarities r1 r2)) i i =
        Real.log (softmax_col_spec
          (fun i j => (∑ x : ρ, r1 i x * r2 j x) / τ) i i) := by
    intro i
    exact (log_softmax_col_eq (sharpened τ (similarities r1 r2)) i i).symm
  rw [Finset.sum_congr rfl (fun i _ => hrow i),
      Finset.sum_congr rfl (fun i _ => hcol i)]

/-- Claim C3: swapping the two views swaps the forward and backward loss
terms, and leaves the total loss unchanged. -/
theorem claim_C3 {n : ℕ} {ρ : Type} [Fintype ρ] (am : (Fin n → ℝ) → Fin n)
    (τ : ℝ) (a b : Fin n → ρ → ℝ) :
    nce_loss_forward τ a b = nce_loss_backward τ b a ∧
    (_contrastive_loss am τ a b).1 = (_contrastive_loss am τ b a).1 := by
  have hS : ∀ (u v : Fin n → ρ → ℝ) (i j : Fin n),
      similarities v u i j = similarities u v j i := by
    intro u v i j
    exact Finset.sum_congr rfl (fun x _ => mul_comm _ _)
  have hfb : ∀ u v : Fin n → ρ → ℝ,
      nce_loss_forward τ u v = nce_loss_backward τ v u := by
    intro u v
    unfold nce_loss_forward nce_loss_backward
    congr 2
    apply Finset.sum_congr rfl
    intro i _
    show log_softmax_row (sharpened τ (similarities u v)) i i =
      log_softmax_col (sharpened τ (similarities v u)) i i
    unfold log_softmax_row log_softmax_col sharpened
    rw [hS u v i i]
    congr 2
    apply Finset.sum_congr rfl
    intro k _
    rw [hS u v k i]
  refine ⟨hfb a b, ?_⟩
  show nce_loss_total τ a b = nce_loss_total τ b a
  unfold nce_loss_total
  rw [hfb a b, ← hfb b a, add_comm]

/-! ### Claim C4: the accuracy is column-wise, not row-wise -/

open scoped Classical in
/-- A concrete `tf.argmax` maximiser selector on length-2 vectors (returns
the smaller index on ties, as the CPU kernel does). -/
noncomputable def am2 : (Fin 2 → ℝ) → Fin 2 :=
  fun f => if f 0 < f 1 then 1 else 0

lemma am2_sel : IsArgmaxSelector am2 := by
  intro f k
  unfold am2
  by_cases h : f 0 < f 1
  · rw [if_pos h]
    fin_cases k
    · exact le_of_lt h
    · exact le_refl _
  · rw [if_neg h]
    fin_cases k
    · exact le_refl _
    · exact le_of_not_lt h

/-- Concrete view-1 representations: batch 2, flattened dimension 2. -/
noncomputable def r1c : Fin 2 → Fin 2 → ℝ := ![![1, 0], ![2, 3]]

/-- Concrete view-2 representations: batch 2, flattened dimension 2. -/
noncomputable def r2c : Fin 2 → Fin 2 → ℝ := ![![1, 0], ![0, 1]]

/-- Claim C4 counterexample: at the concrete input `(r1c, r2c)` with
temperature 1/10, the accuracy returned by `_contrastive_loss` (which is
1/2, because `tf.argmax` is taken over the default axis 0, i.e.
column-wise) differs from the row-wise accuracy that the claim describes
(which is 1). -/
theorem claim_C4_counterexample :
    (_contrastive_loss am2 (1 / 10) r1c r2c).2 ≠
      rowwise_accuracy_spec am2 (sharpened (1 / 10) (similarities r1c r2c)) := by
  have hL : (_contrastive_loss am2 (1 / 10) r1c r2c).2 = 1 / 2 := by
    show batch_accuracy am2 (sharpened (1 / 10) (similarities r1c r2c)) = 1 / 2
    unfold batch_accuracy
    rw [Fin.sum_univ_two]
    have h0 : am2 (fun i => sharpened (1 / 10) (similarities r1c r2c) i 0) = 1 := by
      unfold am2
      rw [if_pos (by norm_num [sharpened, similarities, r1c, r2c, Fin.sum_univ_two])]
    have h1 : am2 (fun i => sharpened (1 / 10) (similarities r1c r2c) i 1) = 1 := by
      unfold am2
      rw [if_pos (by norm_num [sharpened, similarities, r1c, r2c, Fin.sum_univ_two])]
    rw [h0, h1]
    norm_num
  have hR : rowwise_accuracy_spec am2 (sharpened (1 / 10) (similarities r1c r2c)) = 1 := by
    unfold rowwise_accuracy_spec
    rw [Fin.sum_univ_two]
    have h0 : am2 (fun j => sharpened (1 / 10) (similarities r1c r2c) 0 j) = 0 := by
      unfold am2
      rw [if_neg (by norm_num [sharpened, similarities, r1c, r2c, Fin.sum_univ_two])]
    have h1 : am2 (fun j => sharpened (1 / 10) (similarities r1c r2c) 1 j) = 1 := by
      unfold am2
      rw [if_pos (by norm_num [sharpened, similarities, r1c, r2c, Fin.sum_univ_two])]
    rw [h0, h1]
    norm_num
  rw [hL, hR]
  norm_num

/-- Claim C4 as amended: the accuracy is computed column-wise.  For each
column `j` of the temperature-scaled similarity matrix (assumed to have a
unique maximiser per column, so that the `tf.argmax` tie convention is
irrelevant), the sample counts as correct exactly when the row index of
that column's maximum equals `j`, and the reported accuracy is the mean of
these 0/1 values over the batch. -/
theorem claim_C4_amended {n : ℕ} {ρ : Type} [Fintype ρ]
    (am : (Fin n → ℝ) → Fin n) (τ : ℝ) (r1 r2 : Fin n → ρ → ℝ)
    (ham : IsArgmaxSelector am)
    (huniq : ∀ j i1 i2 : Fin n,
      (∀ k, sharpened τ (similarities r1 r2) k j ≤ sharpened τ (similarities r1 r2) i1 j) →
      (∀ k, sharpened τ (similarities r1 r2) k j ≤ sharpened τ (similarities r1 r2) i2 j) →
      i1 = i2) :
    (_contrastive_loss am τ r1 r2).2 =
      colwise_strict_accuracy_spec (sharpened τ (similarities r1 r2)) := by
  set S := sharpened τ (similarities r1 r2) with hSdef
  show batch_accuracy am S = colwise_strict_accuracy_spec S
  unfold batch_accuracy colwise_strict_accuracy_spec
  congr 1
  apply Finset.sum_congr rfl
  intro j _
  have hiff : am (fun i => S i j) = j ↔ ∀ i : Fin n, i ≠ j → S i j < S j j := by
    constructor
    · intro ham_j i hij
      have hmax : ∀ k, S k j ≤ S j j := by
        intro k
        have := ham (fun i => S i j) k
        rwa [ham_j] at this
      rcases lt_or_eq_of_le (hmax i) with h | h
      · exact h
      · exact absurd (huniq j i j (fun k => h ▸ hmax k) hmax) hij
    · intro hstrict
      have hmaxj : ∀ k, S k j ≤ S j j := by
        intro k
        by_cases hk : k = j
        · rw [hk]
        · exact le_of_lt (hstrict k hk)
      exact huniq j (am (fun i => S i j)) j (fun k => ham (fun i => S i j) k) hmaxj
  exact if_congr hiff rfl rfl

/-- The concrete similarity matrix `[[10, 0], [20, 30]]` has a unique
maximiser in every column. -/
lemma uniq_c : ∀ j i1 i2 : Fin 2,
    (∀ k, sharpened (1 / 10) (similarities r1c r2c) k j ≤
      sharpened (1 / 10) (similarities r1c r2c) i1 j) →
    (∀ k, sharpened (1 / 10) (similarities r1c r2c) k j ≤
      sharpened (1 / 10) (similarities r1c r2c) i2 j) →
    i1 = i2 := by
  have honly : ∀ j i : Fin 2,
      (∀ k, sharpened (1 / 10) (similarities r1c r2c) k j ≤
        sharpened (1 / 10) (similarities r1c r2c) i j) → i = 1 := by
    intro j i h
    fin_cases i
    · exfalso
      have := h 1
      fin_cases j <;>
        norm_num [sharpened, similarities, r1c, r2c, Fin.sum_univ_two] at this
    · rfl
  intro j i1 i2 h1 h2
  rw [honly j i1 h1, honly j i2 h2]

/-- Witness for the amended claim C4 at the concrete input. -/
theorem claim_C4_amended_witness :
    IsArgmaxSelector am2 ∧
    (_contrastive_loss am2 (1 / 10) r1c r2c).2 =
      colwise_strict_accuracy_spec (sharpened (1 / 10) (similarities r1c r2c)) :=
  ⟨am2_sel, claim_C4_amended am2 (1 / 10) r1c r2c am2_sel uniq_c⟩

/-! ## View creation (`_create_view`, train.py lines 166-216)

A batch of imagery is a 4D tensor `[batch, height, width, bands]`.  The
random draws consumed by the augmentations (crop offsets, jitter values,
per-band dropout uniforms) are deterministic functions of the seed and are
passed as explicit parameters. -/

/-- A 4D image tensor `[batch, height, width, bands]`. -/
def Tensor4 (nb nh nw nc : ℕ) : Type :=
  Fin nb → Fin nh → Fin nw → Fin nc → ℝ

open scoped Classical in
/-- Embedding of `tf.nn.dropout(scene, rate, noise_shape=(batch, 1, 1,
bands))` (train.py lines 208-214): one uniform draw `u b c` in `[0, 1)`
per batch element and spectral band, broadcast over both spatial axes; an
element is dropped (zeroed) iff its band draw is below `rate`, and kept
elements are scaled by `1 / (1 - rate)` (inverted-dropout convention). -/
noncomputable def band_dropout {nb nh nw nc : ℕ} (rate : ℝ)
    (u : Fin nb → Fin nc → ℝ) (scene : Tensor4 nb nh nw nc) :
    Tensor4 nb nh nw nc :=
  fun b h w c => if u b c < rate then 0 else scene b h w c * (1 - rate)⁻¹

/-- The set of uniform draws in `[0, 1)` that drop a band at rate `p`. -/
def dropProbSet (p : ℝ) : Set ℝ :=
  {x ∈ Set.Ico (0 : ℝ) 1 | x < p}

/-- Embedding of the crop `tf.image.random_crop(scene, input_shape())`
(train.py line 194): reads an `M × M` window of the `D × D` input at the
offset the random generator derives from the seed. -/
def cropAt {nb nc : ℕ} (M D : ℕ) (oy ox : ℕ)
    (hy : oy + M ≤ D) (hx : ox + M ≤ D)
    (scene : Tensor4 nb D D nc) : Tensor4 nb M M nc :=
  fun b i j c =>
    scene b ⟨oy + i.val, by have := i.isLt; omega⟩
      ⟨ox + j.val, by have := j.isLt; omega⟩ c

/-- Embedding of the conditional crop (train.py lines 193-194): the crop
runs only when `model_tilesize` differs from `data_tilesize`; its offset
is a function `off` of the seed alone. -/
def crop_stage {nb nc : ℕ} (M D : ℕ) (hMD : M ≤ D)
    (off : ℕ → ℕ × ℕ) (hoff : ∀ s, (off s).1 + M ≤ D ∧ (off s).2 + M ≤ D)
    (seed : ℕ) (scene : Tensor4 nb D D nc) : Tensor4 nb M M nc :=
  if M = D then cropAt M D 0 0 (by omega) (by omega) scene
  else cropAt M D (off seed).1 (off seed).2 (hoff seed).1 (hoff seed).2 scene

open scoped Classical in
/-- Embedding of the conditional `tf.image.random_brightness` (train.py
lines 196-199): a single seed-determined offset `d` is added to every
pixel; skipped when the configured delta is unset/zero (Python
truthiness). -/
noncomputable def brightness_stage {nb nh nw nc : ℕ} (delta d : ℝ)
    (t : Tensor4 nb nh nw nc) : Tensor4 nb nh nw nc :=
  if delta = 0 then t else fun b i j c => t b i j c + d

/-- Per-image, per-channel spatial mean, as used by
`tf.image.random_contrast`. -/
noncomputable def channel_mean {nb nh nw nc : ℕ} (t : Tensor4 nb nh nw nc)
    (b : Fin nb) (c : Fin nc) : ℝ :=
  (∑ i : Fin nh, ∑ j : Fin nw, t b i j c) / (nh * nw)

open scoped Classical in
/-- Embedding of the conditional `tf.image.random_contrast` (train.py
lines 200-206): each channel is rescaled about its spatial mean by a
single seed-determined factor `f`; skipped when the configured delta is
unset/zero. -/
noncomputable def contrast_stage {nb nh nw nc : ℕ} (delta f : ℝ)
    (t : Tensor4 nb nh nw nc) : Tensor4 nb nh nw nc :=
  if delta = 0 then t
  else fun b i j c => channel_mean t b c + (t b i j c - channel_mean t b c) * f

/-- Embedding of `_create_view` (train.py lines 166-216): conditional
crop, conditional brightness jitter, conditional contrast jitter, then
band dropout (always applied). -/
noncomputable def _create_view {nb nc : ℕ} (M D : ℕ) (hMD : M ≤ D)
    (off : ℕ → ℕ × ℕ) (hoff : ∀ s, (off s).1 + M ≤ D ∧ (off s).2 + M ≤ D)
    (brightnessDelta : ℝ) (brightnessDraw : ℕ → ℝ)
    (contrastDelta : ℝ) (contrastDraw : ℕ → ℝ)
    (dropoutRate : ℝ) (dropoutDraw : Fin nb → Fin nc → ℝ)
    (seed : ℕ) (scene : Tensor4 nb D D nc) : Tensor4 nb M M nc :=
  band_dropout dropoutRate dropoutDraw
    (contrast_stage contrastDelta (contrastDraw seed)
      (brightness_stage brightnessDelta (brightnessDraw seed)
        (crop_stage M D hMD off hoff seed scene)))

/-- Brightness jitter is the identity when unconfigured. -/
lemma brightness_stage_zero {nb nh nw nc : ℕ} (d : ℝ)
    (t : Tensor4 nb nh nw nc) : brightness_stage 0 d t = t := by
  unfold brightness_stage
  rw [if_pos rfl]

/-- Contrast jitter is the identity when unconfigured. -/
lemma contrast_stage_zero {nb nh nw nc : ℕ} (f : ℝ)
    (t : Tensor4 nb nh nw nc) : contrast_stage 0 f t = t := by
  unfold contrast_stage
  rw [if_pos rfl]

/-- Band dropout at rate 0 is the identity (uniform draws are
nonnegative, so nothing is dropped, and the kept scale is `1/(1-0) = 1`). -/
lemma band_dropout_zero {nb nh nw nc : ℕ} (u : Fin nb → Fin nc → ℝ)
    (hu : ∀ b c, 0 ≤ u b c) (t : Tensor4 nb nh nw nc) :
    band_dropout 0 u t = t := by
  funext b h w c
  unfold band_dropout
  rw [if_neg (not_lt.mpr (hu b c))]
  norm_num

/-- Claim C5: band dropout decides keep/drop per batch element and per
spectral band from a single draw shared by all spatial positions of that
band; a dropped band is zero at every spatial pixel simultaneously; every
kept value is scaled by `1/(1-p)`, which preserves the expected magnitude
(`(1-p) * (v / (1-p)) + p * 0 = v`); and the probability that a uniform
`[0, 1)` draw falls in the dropping set is exactly `p`.  The output
tensor has the same shape (`Tensor4 nb nh nw nc`) as the input by
construction. -/
theorem claim_C5 {nb nh nw nc : ℕ} (p : ℝ) (u : Fin nb → Fin nc → ℝ)
    (scene : Tensor4 nb nh nw nc) (hp0 : 0 ≤ p) (hp1 : p < 1) :
    (∀ b c, u b c < p → ∀ h w, band_dropout p u scene b h w c = 0) ∧
    (∀ b c, ¬ u b c < p →
      ∀ h w, band_dropout p u scene b h w c = scene b h w c * (1 - p)⁻¹) ∧
    (∀ v : ℝ, (1 - p) * (v * (1 - p)⁻¹) + p * 0 = v) ∧
    MeasureTheory.volume (dropProbSet p) = ENNReal.ofReal p := by
  refine ⟨?_, ?_, ?_, ?_⟩
  · intro b c hdrop h w
    unfold band_dropout
    rw [if_pos hdrop]
  · intro b c hkeep h w
    unfold band_dropout
    rw [if_neg hkeep]
  · intro v
    have hne : (1 : ℝ) - p ≠ 0 := by linarith
    field_simp
  · have hset : dropProbSet p = Set.Ico 0 p := by
      ext x
      unfold dropProbSet
      simp only [Set.mem_setOf_eq, Set.mem_Ico, Set.mem_sep_iff]
      constructor
      · rintro ⟨⟨hx0, _⟩, hxp⟩
        exact ⟨hx0, hxp⟩
      · rintro ⟨hx0, hxp⟩
        exact ⟨⟨hx0, lt_of_lt_of_le hxp (le_of_lt hp1)⟩, hxp⟩
    rw [hset, Real.volume_Ico]
    norm_num

/-- Concrete uniform draws for the C5 witness. -/
noncomputable def uW : Fin 1 → Fin 1 → ℝ := fun _ _ => 3 / 4

/-- Concrete scene for the C5 witness. -/
noncomputable def sceneW : Tensor4 1 1 1 1 := fun _ _ _ _ => 2

/-- Witness for claim C5 at `p = 1/2`. -/
theorem claim_C5_witness :
    (0 : ℝ) ≤ 1 / 2 ∧ (1 / 2 : ℝ) < 1 ∧
    ((∀ b c, uW b c < 1 / 2 →
        ∀ h w, band_dropout (1 / 2) uW sceneW b h w c = 0) ∧
     (∀ b c, ¬ uW b c < 1 / 2 →
        ∀ h w, band_dropout (1 / 2) uW sceneW b h w c =
          sceneW b h w c * (1 - 1 / 2)⁻¹) ∧
     (∀ v : ℝ, (1 - 1 / 2) * (v * (1 - 1 / 2)⁻¹) + 1 / 2 * 0 = v) ∧
     MeasureTheory.volume (dropProbSet (1 / 2)) = ENNReal.ofReal (1 / 2)) :=
  ⟨by norm_num, by norm_num,
    claim_C5 (1 / 2) uW sceneW (by norm_num) (by norm_num)⟩

/-- Claim C9: with dropout rate 0 and no jitter configured, view creation
returns exactly the deterministic, seed-determined crop of the input; if
additionally the model tile size equals the data tile size, it returns
the input batch itself.  `hu` records that the dropout draws are
uniform-`[0, 1)` samples, hence nonnegative. -/
theorem claim_C9 {nb nc : ℕ} (M D : ℕ) (hMD : M ≤ D)
    (off : ℕ → ℕ × ℕ) (hoff : ∀ s, (off s).1 + M ≤ D ∧ (off s).2 + M ≤ D)
    (brightnessDraw contrastDraw : ℕ → ℝ)
    (u : Fin nb → Fin nc → ℝ) (hu : ∀ b c, 0 ≤ u b c)
    (seed : ℕ) (scene : Tensor4 nb D D nc) :
    (M ≠ D →
      _create_view M D hMD off hoff 0 brightnessDraw 0 contrastDraw 0 u seed scene =
        cropAt M D (off seed).1 (off seed).2 (hoff seed).1 (hoff seed).2 scene) ∧
    (M = D → ∀ b i j c,
      _create_view M D hMD off hoff 0 brightnessDraw 0 contrastDraw 0 u seed scene b i j c =
        scene b ⟨i.val, lt_of_lt_of_le i.isLt hMD⟩
          ⟨j.val, lt_of_lt_of_le j.isLt hMD⟩ c) := by
  have hpipe :
      _create_view M D hMD off hoff 0 brightnessDraw 0 contrastDraw 0 u seed scene =
        crop_stage M D hMD off hoff seed scene := by
    unfold _create_view
    rw [brightness_stage_zero, contrast_stage_zero, band_dropout_zero u hu]
  constructor
  · intro hne
    rw [hpipe]
    unfold crop_stage
    rw [if_neg hne]
  · intro heq b i j c
    rw [hpipe]
    unfold crop_stage
    rw [if_pos heq]
    unfold cropAt
    simp only [Nat.zero_add]

/-- Concrete crop-offset generator for the C9 witness. -/
def offW : ℕ → ℕ × ℕ := fun _ => (1, 0)

/-- The concrete offsets stay inside a 2×2 scene for 1×1 crops. -/
lemma offW_ok : ∀ s, (offW s).1 + 1 ≤ 2 ∧ (offW s).2 + 1 ≤ 2 := by
  intro s
  unfold offW
  omega

/-- Concrete dropout draws for the C9 witness. -/
noncomputable def uW2 : Fin 1 → Fin 1 → ℝ := fun _ _ => 0

/-- Concrete 2×2 scene for the C9 witness. -/
noncomputable def sceneW2 : Tensor4 1 2 2 1 :=
  fun _ i j _ => (i.val : ℝ) + 2 * (j.val : ℝ)

/-- Witness for claim C9 with a 1×1 model tile cropped out of a 2×2
scene. -/
theorem claim_C9_witness :
    (1 : ℕ) ≤ 2 ∧ (∀ b c, (0 : ℝ) ≤ uW2 b c) ∧
    (((1 : ℕ) ≠ 2 →
      _create_view 1 2 (by omega) offW offW_ok 0 (fun _ => 0) 0 (fun _ => 0)
          0 uW2 1 sceneW2 =
        cropAt 1 2 (offW 1).1 (offW 1).2 (offW_ok 1).1 (offW_ok 1).2 sceneW2) ∧
     ((1 : ℕ) = 2 → ∀ b i j c,
      _create_view 1 2 (by omega) offW offW_ok 0 (fun _ => 0) 0 (fun _ => 0)
          0 uW2 1 sceneW2 b i j c =
        sceneW2 b ⟨i.val, lt_of_lt_of_le i.isLt (by omega)⟩
          ⟨j.val, lt_of_lt_of_le j.isLt (by omega)⟩ c)) :=
  ⟨by omega, fun b c => le_refl 0,
    claim_C9 1 2 (by omega) offW offW_ok (fun _ => 0) (fun _ => 0) uW2
      (fun b c => le_refl 0) 1 sceneW2⟩

/-! ## Hyperparameter schedule (claim C6)

`_dropout_rate` and `_learning_rate` (train.py lines 152-163) delegate to
`csf.utils.optional_warmup`, whose source file is not part of this
repository snapshot.  The schedule value is embedded over exact rationals
with the step as an integer (the step variable is an `int64`). -/

/-- Modelled from the spec: `csf.utils.optional_warmup(step, final_value,
warmup_length)`, the module `csf/utils.py` being absent from the snapshot.
Per spec section 4.1: if `warmup_length` is unset or zero, return
`final_value` unconditionally; otherwise, for `step < warmup_length`
return the linear interpolation `final_value * step / warmup_length`, and
for `step >= warmup_length` return `final_value`.  It is a pure function
of its three arguments. -/
def optional_warmup (step : ℤ) (finalValue : ℚ) (warmup : Option ℕ) : ℚ :=
  match warmup with
  | none => finalValue
  | some w =>
    if w = 0 then finalValue
    else if step < (w : ℤ) then finalValue * step / w else finalValue

/-- Embedding of `_dropout_rate` (train.py lines 152-157): the band
dropout schedule is `optional_warmup` applied to the configured final
rate and warmup length. -/
def _dropout_rate (bandDropoutRate : ℚ) (warmupBatches : Option ℕ)
    (step : ℤ) : ℚ :=
  optional_warmup step bandDropoutRate warmupBatches

/-- Embedding of `_learning_rate` (train.py lines 159-163). -/
def _learning_rate (learningRate : ℚ) (warmupBatches : Option ℕ)
    (step : ℤ) : ℚ :=
  optional_warmup step learningRate warmupBatches

/-- Claim C6 counterexample: as stated, the claim asserts the schedule is
monotonically non-decreasing in the step for every fixed final value `X`
and warmup `W`; for the negative final value `X = -1` with `W = 2` the
value at step 1 (namely `-1/2`) is below the value at step 0 (namely
`0`), so the unconditional monotonicity fails. -/
theorem claim_C6_counterexample :
    optional_warmup 1 (-1) (some 2) < optional_warmup 0 (-1) (some 2) := by
  norm_num [optional_warmup]

/-- Claim C6 as amended: if the warmup length is unset or zero the
schedule returns `X` unconditionally; if the warmup length is `W > 0`,
for `0 ≤ step < W` it returns `X * step / W` (hence `0` at step `0`) and
for `step ≥ W` it returns `X`; and for every fixed *nonnegative* final
value `X` and fixed warmup the schedule is monotonically non-decreasing
in the step.  It is a pure function of its arguments (it is a Lean
function of exactly `step`, `X` and the warmup length). -/
theorem claim_C6_amended :
    (∀ (X : ℚ) (s : ℤ), optional_warmup s X none = X) ∧
    (∀ (X : ℚ) (s : ℤ), optional_warmup s X (some 0) = X) ∧
    (∀ (X : ℚ) (w : ℕ) (s : ℤ), 0 < w → 0 ≤ s → s < w →
      optional_warmup s X (some w) = X * s / w) ∧
    (∀ (X : ℚ) (w : ℕ), 0 < w → optional_warmup 0 X (some w) = 0) ∧
    (∀ (X : ℚ) (w : ℕ) (s : ℤ), (w : ℤ) ≤ s → optional_warmup s X (some w) = X) ∧
    (∀ (X : ℚ) (warmup : Option ℕ) (s t : ℤ), 0 ≤ X → s ≤ t →
      optional_warmup s X warmup ≤ optional_warmup t X warmup) := by
  have hlt : ∀ (X : ℚ) (w : ℕ) (s : ℤ), 0 < w → s < (w : ℤ) →
      optional_warmup s X (some w) = X * s / w := by
    intro X w s hw hs
    simp only [optional_warmup]
    rw [if_neg (by omega), if_pos hs]
  have hge : ∀ (X : ℚ) (w : ℕ) (s : ℤ), (w : ℤ) ≤ s →
      optional_warmup s X (some w) = X := by
    intro X w s hs
    simp only [optional_warmup]
    by_cases h0 : w = 0
    · rw [if_pos h0]
    · rw [if_neg h0, if_neg (by omega)]
  have hzero : ∀ (X : ℚ) (s : ℤ), optional_warmup s X (some 0) = X := by
    intro X s
    simp [optional_warmup]
  refine ⟨fun X s => rfl, hzero,
    fun X w s hw _ hs => hlt X w s hw hs,
    ?_, hge, ?_⟩
  · intro X w hw
    rw [hlt X w 0 hw (by exact_mod_cast hw)]
    norm_num
  · intro X warmup s t hX hst
    match warmup with
    | none => exact le_refl _
    | some w =>
      by_cases h0 : w = 0
      · subst h0
        rw [hzero, hzero]
      · have hw : 0 < w := Nat.pos_of_ne_zero h0
        have hwq : (0 : ℚ) < w := by exact_mod_cast hw
        by_cases ht : t < (w : ℤ)
        · have hs : s < (w : ℤ) := lt_of_le_of_lt hst ht
          rw [hlt X w s hw hs, hlt X w t hw ht]
          have hnum : X * (s : ℚ) ≤ X * (t : ℚ) :=
            mul_le_mul_of_nonneg_left (by exact_mod_cast hst) hX
          have hmul := mul_le_mul_of_nonneg_right hnum
            (inv_nonneg.mpr hwq.le)
          simpa [div_eq_mul_inv] using hmul
        · rw [hge X w t (by omega)]
          by_cases hs : s < (w : ℤ)
          · rw [hlt X w s hw hs]
            rw [div_le_iff₀ hwq]
            exact mul_le_mul_of_nonneg_left (by exact_mod_cast le_of_lt hs) hX
          · rw [hge X w s (by omega)]

/-- Witness for the amended claim C6 with `X = 3`, `W = 2`, steps 1 and
(for monotonicity) 1 ≤ 3. -/
theorem claim_C6_amended_witness :
    (0 < 2 ∧ (0 : ℤ) ≤ 1 ∧ (1 : ℤ) < 2 ∧
      optional_warmup 1 3 (some 2) = 3 * 1 / 2) ∧
    ((0 : ℚ) ≤ 3 ∧ (1 : ℤ) ≤ 3 ∧
      optional_warmup 1 3 (some 2) ≤ optional_warmup 3 3 (some 2)) :=
  ⟨⟨by omega, by omega, by omega,
      claim_C6_amended.2.2.1 3 2 1 (by omega) (by omega) (by omega)⟩,
   ⟨by norm_num, by omega,
      claim_C6_amended.2.2.2.2.2 3 (some 2) 1 3 (by norm_num) (by omega)⟩⟩

/-! ## Layer-loss-weight parsing (claim C8; train.py lines 122-145)

Python strings are embedded as `List Char`.  `str.split(sep)` (without a
limit) is embedded as `splitOnChar`, and the builtin `float` on plain
signed decimal literals as `parseFloat` (exponent and special forms such
as `inf` are not exercised by any claim). -/

/-- Embedding of Python `str.split(sep)` for a one-character separator:
splits into the (possibly empty) fragments between occurrences of the
separator. -/
def splitOnChar (sep : Char) : List Char → List (List Char)
  | [] => [[]]
  | c :: rest =>
    if c = sep then [] :: splitOnChar sep rest
    else
      match splitOnChar sep rest with
      | [] => [[c]]
      | h :: t => (c :: h) :: t

/-- Numeric value of a list of decimal digits, most significant first. -/
def digitsVal (cs : List Char) : ℕ :=
  cs.foldl (fun a c => a * 10 + (c.toNat - 48)) 0

/-- All characters are decimal digits. -/
def allDigits (cs : List Char) : Bool := cs.all Char.isDigit

/-- Embedding of Python `float` on unsigned plain decimal literals:
`digits`, `digits.digits`, `.digits` or `digits.`; anything else fails. -/
def parseUnsignedFloat (cs : List Char) : Option ℚ :=
  match splitOnChar '.' cs with
  | [ip] => if ip ≠ [] ∧ allDigits ip then some (digitsVal ip) else none
  | [ip, fp] =>
    if (ip ≠ [] ∨ fp ≠ []) ∧ allDigits ip ∧ allDigits fp then
      some ((digitsVal ip : ℚ) + (digitsVal fp : ℚ) / (10 ^ fp.length))
    else none
  | _ => none

/-- Embedding of Python `float` with an optional leading sign. -/
def parseFloat (cs : List Char) : Option ℚ :=
  match cs with
  | '-' :: rest => (parseUnsignedFloat rest).map (fun q => -q)
  | '+' :: rest => parseUnsignedFloat rest
  | _ => parseUnsignedFloat cs

/-- Modelled from the spec: `RESNET_REPRESENTATION_LAYERS` is imported
from `csf.encoder`, which is absent from this snapshot; the spec's
parser example names `conv4_block5_out` and `conv5_block3_out` as known
encoder representation layers. -/
def RESNET_REPRESENTATION_LAYERS : List (List Char) :=
  [("conv4_block5_out").toList, ("conv5_block3_out").toList]

/-- Embedding of one iteration of the loop in `_parse_layer_loss_weights`
(train.py lines 137-140): `name, weight = value.split(":")` fails unless
the split has exactly two parts; `assert name in
RESNET_REPRESENTATION_LAYERS`; `float(weight)` fails on an unparseable
weight.  Any failure aborts the whole parse (the exception propagates to
the flag validator). -/
def parseEntry (layers : List (List Char)) (v : List Char) :
    Option (List Char × ℚ) :=
  match splitOnChar ':' v with
  | [name, weight] =>
    if name ∈ layers then (parseFloat weight).map (fun q => (name, q))
    else none
  | _ => none

/-- Embedding of the Python dict assignment `result[name] = w`: replace
the value in place if the key is present, else append. -/
def dictInsert (m : List (List Char × ℚ)) (p : List Char × ℚ) :
    List (List Char × ℚ) :=
  if m.any (fun q => q.1 == p.1) then
    m.map (fun q => if q.1 = p.1 then (q.1, p.2) else q)
  else m ++ [p]

/-- One step of the parsing fold: a previous failure is sticky. -/
def parseStep (layers : List (List Char))
    (acc : Option (List (List Char × ℚ))) (v : List Char) :
    Option (List (List Char × ℚ)) :=
  acc.bind (fun m => (parseEntry layers v).map (dictInsert m))

/-- Embedding of `_parse_layer_loss_weights` (train.py lines 131-141):
builds the name-to-weight mapping entry by entry, failing if any entry is
malformed or names an unknown layer. -/
def _parse_layer_loss_weights (layers : List (List Char))
    (values : List (List Char)) : Option (List (List Char × ℚ)) :=
  values.foldl (parseStep layers) (some [])

/-- Embedding of the flag validator `_check_layer_loss_weights` (train.py
lines 122-128), registered with `@flags.validator` so that it runs at
configuration (flag-parsing) time, before any training step: it accepts
exactly when `_parse_layer_loss_weights` raises no exception. -/
def _check_layer_loss_weights (layers : List (List Char))
    (values : List (List Char)) : Bool :=
  (_parse_layer_loss_weights layers values).isSome

/-- A successfully parsed entry names a known layer. -/
lemma parseEntry_sound {layers : List (List Char)} {v : List Char}
    {p : List Char × ℚ} (h : parseEntry layers v = some p) :
    p.1 ∈ layers := by
  unfold parseEntry at h
  split at h
  · split at h
    · rcases Option.map_eq_some'.mp h with ⟨q, _, rfl⟩
      assumption
    · exact absurd h (by simp)
  · exact absurd h (by simp)

/-- Keys of `dictInsert m p` come from `m` or are the key of `p`. -/
lemma mem_dictInsert {m : List (List Char × ℚ)} {p r : List Char × ℚ}
    (h : r ∈ dictInsert m p) : r ∈ m ∨ r.1 = p.1 := by
  unfold dictInsert at h
  split at h
  · rcases List.mem_map.mp h with ⟨q, hq, hr⟩
    by_cases hqp : q.1 = p.1
    · rw [if_pos hqp] at hr
      right
      rw [← hr]
      exact hqp
    · rw [if_neg hqp] at hr
      left
      rw [← hr]
      exact hq
  · rcases List.mem_append.mp h with h | h
    · exact Or.inl h
    · right
      rw [List.mem_singleton.mp h]

/-- A failed accumulator stays failed through the parsing fold. -/
lemma foldl_parseStep_none (layers : List (List Char)) :
    ∀ values : List (List Char),
      List.foldl (parseStep layers) none values = none := by
  intro values
  induction values with
  | nil => rfl
  | cons v vs ih =>
    show List.foldl (parseStep layers) (parseStep layers none v) vs = none
    rw [show parseStep layers none v = none from rfl]
    exact ih

/-- Every key in a successfully parsed mapping is a known layer, given
every key of the starting accumulator is. -/
lemma parse_sound_aux (layers : List (List Char)) :
    ∀ (values : List (List Char)) (m0 m : List (List Char × ℚ)),
      (∀ r ∈ m0, r.1 ∈ layers) →
      List.foldl (parseStep layers) (some m0) values = some m →
      ∀ r ∈ m, r.1 ∈ layers := by
  intro values
  induction values with
  | nil =>
    intro m0 m h0 hfold
    cases hfold
    exact h0
  | cons v vs ih =>
    intro m0 m h0 hfold
    rw [show List.foldl (parseStep layers) (some m0) (v :: vs) =
          List.foldl (parseStep layers) (parseStep layers (some m0) v) vs
        from rfl] at hfold
    cases hpe : parseEntry layers v with
    | none =>
      rw [show parseStep layers (some m0) v =
            (parseEntry layers v).map (dictInsert m0) from rfl, hpe] at hfold
      rw [show ((none : Option (List Char × ℚ)).map (dictInsert m0)) = none
            from rfl] at hfold
      rw [foldl_parseStep_none layers vs] at hfold
      cases hfold
    | some p =>
      apply ih (dictInsert m0 p) m ?_ ?_
      · intro r hr
        rcases mem_dictInsert hr with h | h
        · exact h0 r h
        · rw [h]
          exact parseEntry_sound hpe
      · rw [show parseStep layers (some m0) v =
              (parseEntry layers v).map (dictInsert m0) from rfl, hpe] at hfold
        exact hfold

/-- Claim C8: the layer-loss-weight parser maps `name:float` entries to
the corresponding name-to-weight mapping (the spec's example included),
and the configuration-time validator (registered via `@flags.validator`,
hence run at flag-parsing time, before any training step) rejects a list
whenever an entry is missing its colon, names an unknown layer, or has an
unparseable weight; moreover every key of any successfully parsed mapping
is a known layer. -/
theorem claim_C8 :
    (_parse_layer_loss_weights RESNET_REPRESENTATION_LAYERS
        [("conv4_block5_out:0.5").toList, ("conv5_block3_out:1.0").toList] =
      some [(("conv4_block5_out").toList, 1 / 2),
            (("conv5_block3_out").toList, 1)]) ∧
    (_check_layer_loss_weights RESNET_REPRESENTATION_LAYERS
        [("conv4_block5_out0.5").toList] = false) ∧
    (_check_layer_loss_weights RESNET_REPRESENTATION_LAYERS
        [("conv9_bogus_out:0.5").toList] = false) ∧
    (_check_layer_loss_weights RESNET_REPRESENTATION_LAYERS
        [("conv4_block5_out:zz").toList] = false) ∧
    (∀ layers values m,
      _parse_layer_loss_weights layers values = some m →
      ∀ r ∈ m, r.1 ∈ layers) := by
  refine ⟨?_, ?_, ?_, ?_, ?_⟩
  · simp +decide [_parse_layer_loss_weights, parseStep, parseEntry,
      dictInsert, parseFloat, parseUnsignedFloat, splitOnChar, digitsVal,
      allDigits, RESNET_REPRESENTATION_LAYERS]
    norm_num
  · decide
  · decide
  · decide
  · intro layers values m hparse
    exact parse_sound_aux layers values [] m (by simp) hparse

/-- Witness for the universally quantified part of claim C8: the key of
the first entry of the parsed example mapping is a known layer. -/
theorem claim_C8_witness :
    ("conv4_block5_out").toList ∈ RESNET_REPRESENTATION_LAYERS :=
  claim_C8.2.2.2.2 RESNET_REPRESENTATION_LAYERS
    [("conv4_block5_out:0.5").toList, ("conv5_block3_out:1.0").toList]
    [(("conv4_block5_out").toList, 1 / 2), (("conv5_block3_out").toList, 1)]
    claim_C8.1 (("conv4_block5_out").toList, 1 / 2) (by simp)

/-! ## Training step (claim C1; train.py lines 344-349 and 431-469)

The encoder and the gradient-plus-optimizer update are opaque
collaborators; they are parameters of the embedding.  The gradient of the
aggregated loss and the optimizer update are determined by the two views
and the current weights and optimizer state (`gradOpt`), never by the
summary flag: the `show_summaries` boolean only gates `tf.summary`
emission inside `_contrastive_loss`. -/

/-- A `tf.metrics.Mean` accumulator: running total and count. -/
structure MeanMetric where
  total : ℝ
  count : ℕ

/-- Embedding of `Mean.update_state([v])`. -/
def metricUpdate (m : MeanMetric) (v : ℝ) : MeanMetric :=
  ⟨m.total + v, m.count + 1⟩

/-- Embedding of train.py lines 344-349: the metric accumulators
(`total_loss_metric` and the per-layer `layer_metrics`) are created only
under `if FLAGS.summary_frequency:`; when the summary frequency is 0 the
Python names are simply never assigned, modelled here as `none`. -/
def mkMetrics (summaryFrequency : ℕ)
    (layersAndWeights : List (List Char × ℝ)) :
    Option (List (MeanMetric × MeanMetric) × MeanMetric) :=
  if summaryFrequency ≠ 0 then
    some (layersAndWeights.map (fun _ => (⟨0, 0⟩, ⟨0, 0⟩)), ⟨0, 0⟩)
  else none

/-- Result of one training step: the returned total loss, the updated
encoder weights and optimizer state, the updated metric accumulators, and
the names of the summary records emitted this step. -/
structure StepResult (W O : Type) where
  loss_total : ℝ
  weights : W
  opt : O
  layerMetrics : List (MeanMetric × MeanMetric)
  totalMetric : MeanMetric
  summaries : List String

/-- The numerical outputs of a training step: total loss, weights,
optimizer state. -/
def stepNumerics {W O : Type} (r : StepResult W O) : ℝ × W × O :=
  (r.loss_total, r.weights, r.opt)

/-- Embedding of `train_step` (train.py lines 431-469).  Two views are
created with seeds 1 and 2 (`viewFn`), encoded (`enc`, giving one
representation batch per layer name, of per-layer flattened width `dim`),
the per-layer contrastive losses are weighted and summed into
`loss_total`, metric accumulators are updated under `if
FLAGS.summary_frequency:`, and the gradient/optimizer update `gradOpt` is
applied.  Crucially, line 447 evaluates `zip(layer_metrics, ...)`
unconditionally, so when the metrics were never created (summary
frequency 0) the step raises a `NameError`; and `show_summaries` feeds
only the `tf.summary` records. -/
noncomputable def train_step {n : ℕ} {B V W O : Type}
    (summaryFrequency : ℕ) (dim : List Char → ℕ)
    (am : (Fin n → ℝ) → Fin n) (τ : ℝ)
    (layersAndWeights : List (List Char × ℝ))
    (viewFn : B → ℕ → V)
    (enc : V → (l : List Char) → Fin n → Fin (dim l) → ℝ)
    (gradOpt : V → V → W → O → W × O)
    (batch : B) (weights : W) (opt : O)
    (metrics : Option (List (MeanMetric × MeanMetric) × MeanMetric))
    (show_summaries : Bool) :
    Except String (StepResult W O) :=
  match metrics with
  | none => Except.error "NameError: layer_metrics referenced before assignment"
  | some (layerMs, totalM) =>
    let view_1 := viewFn batch 1
    let view_2 := viewFn batch 2
    let representations_1 := enc view_1
    let representations_2 := enc view_2
    let pairs := layerMs.zip layersAndWeights
    let perLayer := pairs.map (fun q =>
      _contrastive_loss am τ (representations_1 q.2.1) (representations_2 q.2.1))
    let loss_total := ((pairs.zip perLayer).map (fun q => q.1.2.2 * q.2.1)).sum
    let newLayerMs := (pairs.zip perLayer).map (fun q =>
      if summaryFrequency ≠ 0 then
        (metricUpdate q.1.1.1 q.2.1, metricUpdate q.1.1.2 q.2.2)
      else q.1.1)
    let newTotalM :=
      if summaryFrequency ≠ 0 then metricUpdate totalM loss_total else totalM
    let wo := gradOpt view_1 view_2 weights opt
    Except.ok
      { loss_total := loss_total
        weights := wo.1
        opt := wo.2
        layerMetrics := newLayerMs
        totalMetric := newTotalM
        summaries :=
          if show_summaries then
            (pairs.map (fun _ =>
              ["representation_histogram", "similarities_histogram",
               "similarities_matrix"])).flatten
          else [] }

/-- Claim C1 (code bug).  Second conjunct: for any created metric state,
the summary-recording boolean does not change the numerical results of a
training step (same total loss, same weight and optimizer update).
First conjunct: but with the summary cadence configured as 0 the metric
accumulators are never created (train.py lines 345-349), while the step
function dereferences `layer_metrics` unconditionally (line 447), so
every training step fails with a `NameError` instead of running —
contradicting the flag docstring, which promises that 0 merely disables
summaries. -/
theorem claim_C1 :
    (∀ (n : ℕ) (B V W O : Type) (dim : List Char → ℕ)
      (am : (Fin n → ℝ) → Fin n) (τ : ℝ)
      (layersAndWeights : List (List Char × ℝ))
      (viewFn : B → ℕ → V)
      (enc : V → (l : List Char) → Fin n → Fin (dim l) → ℝ)
      (gradOpt : V → V → W → O → W × O)
      (batch : B) (weights : W) (opt : O) (ss : Bool),
      train_step 0 dim am τ layersAndWeights viewFn enc gradOpt batch
          weights opt (mkMetrics 0 layersAndWeights) ss =
        Except.error "NameError: layer_metrics referenced before assignment") ∧
    (∀ (n : ℕ) (B V W O : Type) (summaryFrequency : ℕ)
      (dim : List Char → ℕ) (am : (Fin n → ℝ) → Fin n) (τ : ℝ)
      (layersAndWeights : List (List Char × ℝ))
      (viewFn : B → ℕ → V)
      (enc : V → (l : List Char) → Fin n → Fin (dim l) → ℝ)
      (gradOpt : V → V → W → O → W × O)
      (batch : B) (weights : W) (opt : O)
      (ms : List (MeanMetric × MeanMetric) × MeanMetric) (ss₁ ss₂ : Bool),
      (train_step summaryFrequency dim am τ layersAndWeights viewFn enc
          gradOpt batch weights opt (some ms) ss₁).map stepNumerics =
      (train_step summaryFrequency dim am τ layersAndWeights viewFn enc
          gradOpt batch weights opt (some ms) ss₂).map stepNumerics) := by
  constructor
  · intro n B V W O dim am τ law viewFn enc gradOpt batch weights opt ss
    rfl
  · intro n B V W O f dim am τ law viewFn enc gradOpt batch weights opt ms ss₁ ss₂
    rfl

/-! ## Training loop (claims C7 and C10; train.py lines 379, 473-518) -/

/-- An observable event of the training loop: a training step executed at
a given step index, a periodic checkpoint save, or the final checkpoint
save after the loop exits. -/
inductive LoopEvent where
  | trainStep (stepIndex : ℤ)
  | checkpoint (stepIndex : ℤ)
  | finalCheckpoint
deriving DecidableEq

/-- Embedding of the `for batch in ds:` loop (train.py lines 473-515):
each iteration increments the step variable first (line 474), runs the
training step for that batch, saves a checkpoint when `current_step %
checkpoint_frequency == 0` (line 503), and breaks only after all of that,
when `current_step >= train_batches` (line 513). -/
def loopEvents {B : Type} (trainBatches checkpointFrequency : ℤ) :
    List B → ℤ → List LoopEvent
  | [], _ => []
  | _ :: rest, step =>
    LoopEvent.trainStep (step + 1) ::
      ((if (step + 1) % checkpointFrequency == 0 then
          [LoopEvent.checkpoint (step + 1)] else []) ++
        (if step + 1 ≥ trainBatches then []
         else loopEvents trainBatches checkpointFrequency rest (step + 1)))

/-- Embedding of `train_unsupervised`'s loop driving: the step variable
is initialized to -1 (train.py line 379) and one extra checkpoint is
saved after the loop exits (line 518). -/
def trainingEvents {B : Type} (trainBatches checkpointFrequency : ℤ)
    (ds : List B) : List LoopEvent :=
  loopEvents trainBatches checkpointFrequency ds (-1) ++
    [LoopEvent.finalCheckpoint]

/-- The step index of a training-step event. -/
def eventStepIndex : LoopEvent → Option ℤ
  | LoopEvent.trainStep i => some i
  | LoopEvent.checkpoint _ => none
  | LoopEvent.finalCheckpoint => none

/-- The sequence of step indices at which the training step ran, in
execution order, for a run over the batch stream `ds`. -/
def executedSteps {B : Type} (trainBatches checkpointFrequency : ℤ)
    (ds : List B) : List ℤ :=
  (loopEvents trainBatches checkpointFrequency ds (-1)).filterMap
    eventStepIndex

/-- The `k`-th executed training step of a loop entered with step
variable `s` has step index `s + 1 + k`. -/
lemma executed_get {B : Type} (t c : ℤ) :
    ∀ (ds : List B) (s : ℤ) (k : ℕ) (v : ℤ),
      ((loopEvents t c ds s).filterMap eventStepIndex)[k]? = some v →
      v = s + 1 + k := by
  intro ds
  induction ds with
  | nil =>
    intro s k v h
    simp [loopEvents] at h
  | cons b rest ih =>
    intro s k v h
    rw [show loopEvents t c (b :: rest) s =
          LoopEvent.trainStep (s + 1) ::
            ((if (s + 1) % c == 0 then [LoopEvent.checkpoint (s + 1)]
              else []) ++
              (if s + 1 ≥ t then [] else loopEvents t c rest (s + 1)))
        from rfl] at h
    rw [List.filterMap_cons, List.filterMap_append] at h
    have hck : (if (s + 1) % c == 0 then [LoopEvent.checkpoint (s + 1)]
        else []).filterMap eventStepIndex = [] := by
      by_cases hc : (s + 1) % c == 0
      · rw [if_pos hc]
        rfl
      · rw [if_neg hc]
        rfl
    rw [hck] at h
    simp only [eventStepIndex, List.nil_append] at h
    match k with
    | 0 =>
      rw [List.getElem?_cons_zero] at h
      injection h with h
      omega
    | k + 1 =>
      rw [List.getElem?_cons_succ] at h
      by_cases hbreak : s + 1 ≥ t
      · rw [if_pos hbreak] at h
        simp at h
      · rw [if_neg hbreak] at h
        have := ih (s + 1) k v h
        rw [this]
        push_cast
        ring

/-- Claim C7: the training loop step counter starts at -1, is incremented
exactly once per iteration before the training step for that batch runs,
and never decreases: the `k`-th executed training step has step index
exactly `k`, so in particular the first executed training step has step
index 0 and the sequence of executed step indices is strictly
increasing. -/
theorem claim_C7 (B : Type) (trainBatches checkpointFrequency : ℤ)
    (ds : List B) (k : ℕ) (v : ℤ)
    (h : (executedSteps trainBatches checkpointFrequency ds)[k]? = some v) :
    v = k := by
  have := executed_get trainBatches checkpointFrequency ds (-1) k v h
  omega

/-- Witness for claim C7: three batches with a total of 5, checkpoint
cadence 500; the executed steps are `[0, 1, 2]` and entry 1 is 1. -/
theorem claim_C7_witness :
    (executedSteps 5 500 [(), (), ()])[1]? = some 1 ∧ (1 : ℤ) = (1 : ℕ) :=
  ⟨by decide, claim_C7 Unit 5 500 [(), (), ()] 1 1 (by decide)⟩

/-- With enough batches, a loop entered with step variable `s < t` runs
the training step exactly at indices `s + 1, ..., t`. -/
lemma executed_all {B : Type} (t c : ℤ) :
    ∀ (ds : List B) (s : ℤ), s < t → (t - s).toNat ≤ ds.length →
      (loopEvents t c ds s).filterMap eventStepIndex =
        (List.range (t - s).toNat).map (fun (i : ℕ) => s + 1 + (i : ℤ)) := by
  intro ds
  induction ds with
  | nil =>
    intro s hs hlen
    simp only [List.length_nil, Nat.le_zero] at hlen
    omega
  | cons b rest ih =>
    intro s hs hlen
    rw [show loopEvents t c (b :: rest) s =
          LoopEvent.trainStep (s + 1) ::
            ((if (s + 1) % c == 0 then [LoopEvent.checkpoint (s + 1)]
              else []) ++
              (if s + 1 ≥ t then [] else loopEvents t c rest (s + 1)))
        from rfl]
    rw [List.filterMap_cons, List.filterMap_append]
    have hck : (if (s + 1) % c == 0 then [LoopEvent.checkpoint (s + 1)]
        else []).filterMap eventStepIndex = [] := by
      by_cases hc : (s + 1) % c == 0
      · rw [if_pos hc]
        rfl
      · rw [if_neg hc]
        rfl
    rw [hck]
    simp only [eventStepIndex, List.nil_append]
    have hrange : (t - s).toNat = (t - (s + 1)).toNat + 1 := by omega
    rw [hrange, List.range_succ_eq_map, List.map_cons, List.map_map]
    by_cases hbreak : s + 1 ≥ t
    · rw [if_pos hbreak]
      have hzero : (t - (s + 1)).toNat = 0 := by omega
      rw [hzero]
      simp
    · rw [if_neg hbreak]
      rw [ih (s + 1) (by omega) (by simp only [List.length_cons] at hlen; omega)]
      congr 1
      · simp
      · apply List.map_congr_left
        intro i _
        simp only [Function.comp_apply]
        push_cast
        ring

/-- Claim C10: when the dataset stream yields at least `total + 1`
batches, the training loop executes the training step for every step
index from 0 through `total` inclusive — `total + 1` training steps,
because the termination test `current_step >= train_batches` runs only
after the step for that iteration — and a checkpoint is saved once more
after the loop exits. -/
theorem claim_C10 (B : Type) (trainBatches checkpointFrequency : ℤ)
    (ds : List B) (ht : 0 ≤ trainBatches)
    (hlen : trainBatches.toNat + 1 ≤ ds.length) :
    executedSteps trainBatches checkpointFrequency ds =
      (List.range (trainBatches.toNat + 1)).map (fun (i : ℕ) => (i : ℤ)) ∧
    (trainingEvents trainBatches checkpointFrequency ds).getLast? =
      some LoopEvent.finalCheckpoint := by
  constructor
  · unfold executedSteps
    rw [executed_all trainBatches checkpointFrequency ds (-1) (by omega)
        (by omega)]
    have hn : (trainBatches - (-1)).toNat = trainBatches.toNat + 1 := by omega
    rw [hn]
    apply List.map_congr_left
    intro i _
    omega
  · unfold trainingEvents
    exact List.getLast?_concat _

/-- Witness for claim C10: four batches, a total of 2, checkpoint cadence
500: steps 0, 1, 2 run and the event list ends with the final checkpoint
save. -/
theorem claim_C10_witness :
    (0 : ℤ) ≤ 2 ∧ (2 : ℤ).toNat + 1 ≤ ([(), (), (), ()] : List Unit).length ∧
    (executedSteps 2 500 [(), (), (), ()] =
        (List.range ((2 : ℤ).toNat + 1)).map (fun (i : ℕ) => (i : ℤ)) ∧
      (trainingEvents 2 500 [(), (), (), ()]).getLast? =
        some LoopEvent.finalCheckpoint) :=
  ⟨by decide, by decide,
    claim_C10 Unit 2 500 [(), (), (), ()] (by decide) (by decide)⟩

end CSF
